import Mathlib

/-!
Verification development for the yt-video-with-chapters-downloader repository.

The repository has two Python source files, `yt_download.py` and
`web_yt_downloader.py`.  Both define the same timestamp parser
(`time_to_seconds`) and the same chapter extractor (`extract_chapters`,
built on the regular expression `(\d{1,2}:\d{2}(?::\d{2})?)\s*[-–—]\s*(.+)`
searched per description line).  `web_yt_downloader.py` additionally defines
`split_all_chapters` (title sanitization, output naming, ffmpeg command
construction, per-chapter failure tolerance) and a display loop that formats
second offsets back into `H:MM:SS` / `M:SS` text.

Python text is modelled as `List Char`.  Python builtins used by the code
(`str.split`, `int`, `str.splitlines`, `str.strip`, `re.search` for the one
fixed pattern above, string formatting of integers) are given explicit
executable models below; `\d` and `\s` are modelled at ASCII precision
(digits `0`-`9`; whitespace space/tab/newline/carriage-return/vertical-tab/
form-feed), which is the precision at which the repository's inputs and the
specification speak.  Exceptions are modelled with `Except`: a raised
`ValueError` is an `error` value that propagates.
-/

/-- The character class `\d` of the source pattern and the digit test of
Python `int`, at ASCII precision: `0`-`9` (code points 48-57). -/
def isDigitC (c : Char) : Bool :=
  decide (48 ≤ c.toNat) && decide (c.toNat ≤ 57)

/-- The character class `\s` of the source pattern and the strip set of
Python `str.strip`, at ASCII precision. -/
def pyIsSpace (c : Char) : Bool :=
  c = ' ' || c = '\t' || c = '\n' || c = '\x0d' || c = '\x0b' || c = '\x0c'

/-- The dash-like separator class `[-–—]` of the source pattern: hyphen,
en-dash, em-dash. -/
def isDashC (c : Char) : Bool :=
  c = '-' || c = '–' || c = '—'

/-- Model of Python `str.split(sep)` for a one-character separator, as used
by `time_str.split(':')` in `time_to_seconds` (both source files).
`"".split(sep)` is `[""]`; separators at the ends produce empty fields. -/
def splitOnChar (sep : Char) : List Char → List (List Char)
  | [] => [[]]
  | c :: cs =>
    if c = sep then [] :: splitOnChar sep cs
    else
      match splitOnChar sep cs with
      | [] => [[c]]
      | f :: rest => (c :: f) :: rest

/-- Accumulating digit reader backing the model of Python `int`. -/
def digitsToNatAux (acc : Nat) : List Char → Option Nat
  | [] => some acc
  | c :: cs =>
    if isDigitC c then digitsToNatAux (acc * 10 + (c.toNat - 48)) cs else none

/-- Reads a nonempty all-digit string as a natural number; `none` on the
empty string or on any non-digit character. -/
def digitsToNat : List Char → Option Nat
  | [] => none
  | c :: cs => digitsToNatAux 0 (c :: cs)

/-- Model of Python `int(s)` as used by `time_to_seconds`: an optional sign
followed by a nonempty run of digits; anything else raises `ValueError`
(modelled as `none`). -/
def pyInt? (s : List Char) : Option Int :=
  match s with
  | [] => none
  | c :: rest =>
    if c = '-' then (digitsToNat rest).map (fun n => -(n : Int))
    else if c = '+' then (digitsToNat rest).map (fun n => (n : Int))
    else (digitsToNat (c :: rest)).map (fun n => (n : Int))

/-- Model of Python `list(map(int, parts))`: all fields convert, in order,
or the first failing conversion raises (overall `none`). -/
def mapIntParse : List (List Char) → Option (List Int)
  | [] => some []
  | f :: fs =>
    match pyInt? f, mapIntParse fs with
    | some v, some vs => some (v :: vs)
    | _, _ => none

/-- The exceptions `time_to_seconds` can raise: `ValueError` from a failing
`int()` conversion, and the explicit
`ValueError(f"Invalid timestamp: {time_str}")`, which names the offending
token. -/
inductive PyErr where
  | intCast : PyErr
  | invalidTimestamp : List Char → PyErr
deriving DecidableEq, Repr

deriving instance DecidableEq for Except

/-- Embedding of `time_to_seconds` (`yt_download.py` lines 6-16 and
`web_yt_downloader.py` lines 13-21; the two definitions are identical in
behaviour):

    parts = list(map(int, time_str.split(':')))
    if len(parts) == 3:   h, m, s = parts
    elif len(parts) == 2: h = 0; m, s = parts
    else: raise ValueError(f"Invalid timestamp: {time_str}")
    return h * 3600 + m * 60 + s
-/
def time_to_seconds (time_str : List Char) : Except PyErr Int :=
  match mapIntParse (splitOnChar ':' time_str) with
  | none => .error .intCast
  | some [h, m, s] => .ok (h * 3600 + m * 60 + s)
  | some [m, s] => .ok (0 * 3600 + m * 60 + s)
  | some _ => .error (.invalidTimestamp time_str)

example : time_to_seconds "90:00".toList = .ok 5400 := by decide
example : time_to_seconds "75:90".toList = .ok 4590 := by decide
example : time_to_seconds "1:02:03".toList = .ok 3723 := by decide
example : time_to_seconds "90".toList = .error (.invalidTimestamp "90".toList) := by decide
example : time_to_seconds "1:2:3:4".toList = .error (.invalidTimestamp "1:2:3:4".toList) := by decide
example : time_to_seconds "a:b".toList = .error .intCast := by decide

/-- Model of Python `str.splitlines()` as used by
`description.splitlines()`: lines are cut at `\n`, `\r\n` and `\r`; a
trailing terminator does not add an empty final line; the empty string has
no lines. -/
def pySplitlines : List Char → List (List Char)
  | [] => []
  | '\x0d' :: '\n' :: rest => [] :: pySplitlines rest
  | '\n' :: rest => [] :: pySplitlines rest
  | '\x0d' :: rest => [] :: pySplitlines rest
  | c :: rest =>
    match pySplitlines rest with
    | [] => [[c]]
    | l :: ls => (c :: l) :: ls

example : pySplitlines "a\nb".toList = ["a".toList, "b".toList] := by decide
example : pySplitlines "a\n".toList = ["a".toList] := by decide
example : pySplitlines "".toList = [] := by decide
example : pySplitlines "\n".toList = [[]] := by decide

/-- Model of Python `str.strip()`: remove leading and trailing whitespace. -/
def pyStrip (s : List Char) : List Char :=
  ((s.dropWhile pyIsSpace).reverse.dropWhile pyIsSpace).reverse

/-!
The extractor regular expression `(\d{1,2}:\d{2}(?::\d{2})?)\s*[-–—]\s*(.+)`
(`yt_download.py` line 21, `web_yt_downloader.py` line 25) is modelled by a
direct backtracking matcher specialised to this one pattern, with Python
`re.search` semantics: attempts are anchored at successive start positions
left to right, and at one position alternatives are tried in the engine's
priority order (`\d{1,2}` prefers two digits; the optional `(?::\d{2})?`
prefers to match; `\s*` is greedy, giving characters back only when the
remainder of the pattern cannot otherwise match).  Within one line there is
no `\n`, so `.` matches every remaining character and the greedy `(.+)`
always extends to the end of the line.
-/

/-- Reads `:` followed by exactly two digits, the shape of the mandatory
`:\d{2}` and of the optional `(?::\d{2})?` of the source pattern. -/
def takeColonDD : List Char → Option (Char × Char × List Char)
  | c0 :: a :: b :: rest =>
    if c0 = ':' then
      if isDigitC a then
        if isDigitC b then some (a, b, rest) else none
      else none
    else none
  | _ => none

/-- Matches `\s*[-–—]\s*(.+)` and returns group 2 (the raw title).  The
`\s*` before the separator is effectively maximal-munch (a given-back
character would itself have to be a dash); after the separator, the greedy
`\s*` yields back exactly one whitespace character when nothing would be
left for `(.+)`. -/
def matchSep (s : List Char) : Option (List Char) :=
  match s.dropWhile pyIsSpace with
  | [] => none
  | c :: rest =>
    if isDashC c then
      let tail := rest.dropWhile pyIsSpace
      if tail = [] then
        match (rest.takeWhile pyIsSpace).reverse with
        | [] => none
        | w :: _ => some [w]
      else some tail
    else none

/-- After the mandatory `D:DD` part of the timestamp (group-1 text `ts0`):
try the optional `(?::\d{2})?` first (greedy), backtracking to the
separator without it. -/
def afterMM (ts0 rest : List Char) : Option (List Char × List Char) :=
  (match takeColonDD rest with
   | some (a, b, rest2) =>
     (matchSep rest2).map (fun t => (ts0 ++ [':', a, b], t))
   | none => none)
  <|> (matchSep rest).map (fun t => (ts0, t))

/-- The part of the pattern after the leading digit field `ds`: the
mandatory `:\d{2}`, then `afterMM`. -/
def matchColonMM (ds rest : List Char) : Option (List Char × List Char) :=
  match takeColonDD rest with
  | some (a, b, rest2) => afterMM (ds ++ [':', a, b]) rest2
  | none => none

/-- Anchored attempt of the whole pattern at one position: `\d{1,2}`
prefers two digits, falling back to one. -/
def matchAt (s : List Char) : Option (List Char × List Char) :=
  match s with
  | [] => none
  | c1 :: rest1 =>
    if isDigitC c1 then
      (match rest1 with
       | c2 :: rest2 =>
         if isDigitC c2 then matchColonMM [c1, c2] rest2 else none
       | [] => none)
      <|> matchColonMM [c1] rest1
    else none

/-- Model of `pattern.search(line)`: the leftmost position whose anchored
attempt succeeds; returns (group 1, group 2). -/
def reSearch : List Char → Option (List Char × List Char)
  | [] => none
  | c :: rest => matchAt (c :: rest) <|> reSearch rest

example : reSearch "0:00 - Intro".toList = some ("0:00".toList, "Intro".toList) := by decide
example : reSearch "12:34:56 — A - B".toList = some ("12:34:56".toList, "A - B".toList) := by decide
example : reSearch "0:5 - Intro".toList = none := by decide
example : reSearch "100:00 - X".toList = some ("00:00".toList, "X".toList) := by decide
example : reSearch "1:30 -".toList = none := by decide
example : reSearch "1:30 -  ".toList = some ("1:30".toList, " ".toList) := by decide
example : reSearch "see 1:30 – x".toList = some ("1:30".toList, "x".toList) := by decide
example : reSearch "1:23:4 - x".toList = none := by decide

/-- Embedding of the `extract_chapters` loop body sequence
(`yt_download.py` lines 18-27, `web_yt_downloader.py` lines 23-31): for
each line in order, search the pattern; on a match, append
`(title.strip(), time_to_seconds(ts))`; a raised `ValueError` would
propagate out of the loop. -/
def extractLoop (chapters : List (List Char × Int)) :
    List (List Char) → Except PyErr (List (List Char × Int))
  | [] => .ok chapters
  | line :: rest =>
    match reSearch line with
    | some (ts, title) =>
      match time_to_seconds ts with
      | .ok secs => extractLoop (chapters ++ [(pyStrip title, secs)]) rest
      | .error e => .error e
    | none => extractLoop chapters rest

/-- Embedding of `extract_chapters(description)` (identical in both source
files): chapters collected line by line in source order. -/
def extract_chapters (description : List Char) :
    Except PyErr (List (List Char × Int)) :=
  extractLoop [] (pySplitlines description)

example :
    extract_chapters "0:00 - Intro\n1:30 - Main\n".toList =
      .ok [("Intro".toList, 0), ("Main".toList, 90)] := by decide
example :
    extract_chapters "1:00 - A\n0:30 - B".toList =
      .ok [("A".toList, 60), ("B".toList, 30)] := by decide
example : extract_chapters "".toList = .ok [] := by decide

/-- The result of one line of `extract_chapters`, for stating per-line
properties: at most one chapter per line. -/
def lineChapter (line : List Char) : Option (List Char × Int) :=
  match reSearch line with
  | some (ts, title) =>
    match time_to_seconds ts with
    | .ok secs => some (pyStrip title, secs)
    | .error _ => none
  | none => none

/-- One decimal digit character. -/
def digitChar (d : Nat) : Char :=
  match d with
  | 0 => '0' | 1 => '1' | 2 => '2' | 3 => '3' | 4 => '4'
  | 5 => '5' | 6 => '6' | 7 => '7' | 8 => '8' | _ => '9'

/-- Fuel-indexed decimal rendering (structural recursion, so that concrete
values reduce by `rfl`); correct whenever `n < fuel`. -/
def natDigitsAux : Nat → Nat → List Char
  | 0, _ => []
  | fuel + 1, n =>
    if n < 10 then [digitChar n]
    else natDigitsAux fuel (n / 10) ++ [digitChar (n % 10)]

/-- Model of Python `str(n)` for a non-negative integer. -/
def natDigits (n : Nat) : List Char := natDigitsAux (n + 1) n

/-- Model of the Python format `{n:02d}` for a non-negative integer:
pad with `0` to width 2. -/
def pad2 (n : Nat) : List Char :=
  if n < 10 then '0' :: natDigits n else natDigits n

/-- Model of Python `str(i)` for an integer. -/
def intStr (i : Int) : List Char :=
  if i < 0 then '-' :: natDigits i.natAbs else natDigits i.toNat

example : natDigits 0 = "0".toList := by decide
example : natDigits 123 = "123".toList := by decide
example : pad2 7 = "07".toList := by decide
example : intStr (-45) = "-45".toList := by decide

/-- Embedding of the chapter display formatting (`web_yt_downloader.py`
lines 339-345):

    minutes, seconds = divmod(start, 60)
    hours, minutes = divmod(minutes, 60)
    if hours > 0: time_str = f"{hours}:{minutes:02d}:{seconds:02d}"
    else:         time_str = f"{minutes}:{seconds:02d}"
-/
def formatTime (start : Nat) : List Char :=
  let minutes := start / 60
  let seconds := start % 60
  let hours := minutes / 60
  let minutes2 := minutes % 60
  if hours > 0 then
    natDigits hours ++ ':' :: (pad2 minutes2 ++ ':' :: pad2 seconds)
  else
    natDigits minutes2 ++ ':' :: pad2 seconds

example : formatTime 90 = "1:30".toList := by decide
example : formatTime 3601 = "1:00:01".toList := by decide
example : formatTime 59 = "0:59".toList := by decide

/-- Embedding of the title sanitization of `split_all_chapters`
(`web_yt_downloader.py` line 214): the character class removed by
`re.sub(r'[\\/*?:"<>|]', "", title)`. -/
def isBadFilenameChar (c : Char) : Bool :=
  c = '\\' || c = '/' || c = '*' || c = '?' || c = ':' || c = '\"' ||
  c = '<' || c = '>' || c = '|'

/-- `safe_title = re.sub(r'[\\/*?:"<>|]', "", title)[:50]`
(`web_yt_downloader.py` line 214). -/
def safe_title (title : List Char) : List Char :=
  (title.filter (fun c => !(isBadFilenameChar c))).take 50

/-- The output file basename `f"{i+1:02d} - {safe_title}.mp4"` of
`split_all_chapters` (`web_yt_downloader.py` line 215), for 0-based loop
index `i`. -/
def outputName (i : Nat) (title : List Char) : List Char :=
  pad2 (i + 1) ++ " - ".toList ++ safe_title title ++ ".mp4".toList

example :
    outputName 0 "A/B: C?".toList = "01 - AB C.mp4".toList := by decide

/-- The end offset of the range derived for 0-based chapter position `i`:
`chapters[i+1][1] if i+1 < len(chapters) else None`
(`web_yt_downloader.py` line 213; `yt_download.py` lines 54-57 compute the
same value as a duration). -/
def chapterEnd (chapters : List (List Char × Int)) (i : Nat) : Option Int :=
  (chapters[i + 1]?).map (fun c => c.2)

/-- A derived range: 1-based ordinal, title, start offset, and end offset
(`none` for the open-ended final range). -/
structure SegRange where
  index : Nat
  title : List Char
  start : Int
  stop : Option Int
deriving DecidableEq, Repr

/-- The range list derived from a chapter list: the per-iteration values of
the `for i, (title, start) in enumerate(chapters)` loops of both source
files, with `stop` as in `chapterEnd`. -/
def buildRanges (chapters : List (List Char × Int)) : List SegRange :=
  chapters.enum.map (fun p =>
    { index := p.1 + 1, title := p.2.1, start := p.2.2,
      stop := chapterEnd chapters p.1 })

/-- Embedding of the ffmpeg command construction of `split_all_chapters`
(`web_yt_downloader.py` lines 217-220):

    cmd = ["ffmpeg", "-i", video_path, "-ss", str(start)]
    if end: cmd += ["-t", str(end - start)]
    cmd += ["-c", "copy", "-avoid_negative_ts", "make_zero", "-y", output_file]

`if end:` is Python truthiness: `end` must be non-`None` and non-zero. -/
def webCmd (video : List Char) (start : Int) (stop : Option Int)
    (outputFile : List Char) : List (List Char) :=
  let cmd := ["ffmpeg".toList, "-i".toList, video, "-ss".toList, intStr start]
  let cmd2 :=
    match stop with
    | some e => if e = 0 then cmd else cmd ++ ["-t".toList, intStr (e - start)]
    | none => cmd
  cmd2 ++ ["-c".toList, "copy".toList, "-avoid_negative_ts".toList,
    "make_zero".toList, "-y".toList, outputFile]

/-- Embedding of the ffmpeg command construction of
`download_youtube_video` (`yt_download.py` lines 54-62):

    duration = chapters[i+1][1] - start_time  (or None for the last chapter)
    cmd = ["ffmpeg", "-i", video_path, "-ss", str(start_time)]
    if duration: cmd += ["-t", str(duration)]
    cmd += ["-c", "copy", output_file]

`if duration:` is Python truthiness on the duration value. -/
def ytCmd (video : List Char) (start : Int) (stop : Option Int)
    (outputFile : List Char) : List (List Char) :=
  let duration : Option Int := stop.map (fun e => e - start)
  let cmd := ["ffmpeg".toList, "-i".toList, video, "-ss".toList, intStr start]
  let cmd2 :=
    match duration with
    | some d => if d = 0 then cmd else cmd ++ ["-t".toList, intStr d]
    | none => cmd
  cmd2 ++ ["-c".toList, "copy".toList, outputFile]

/-- Outcome of one chapter's split, as observable from
`split_all_chapters`: either the ffmpeg invocation succeeded, or it exited
non-zero and the loop recorded the warning
`f"Failed to split chapter '{title}': {e}"` and continued. -/
inductive SegOutcome where
  | success : SegOutcome
  | failed : List Char → SegOutcome
deriving DecidableEq, Repr

/-- Embedding of the `split_all_chapters` loop (`web_yt_downloader.py`
lines 212-226).  The external collaborator
`subprocess.run(cmd, ..., check=True)` is an oracle `runExt` mapping a
command to `ok` (exit 0) or an error detail (the `CalledProcessError`
text); the `except` clause turns a failure into a recorded warning and a
`continue`, so every chapter is processed exactly once, in order. -/
def split_all_chapters (runExt : List (List Char) → Except (List Char) Unit)
    (video : List Char) (chapters : List (List Char × Int)) :
    List SegOutcome :=
  chapters.enum.map (fun p =>
    let cmd := webCmd video p.2.2 (chapterEnd chapters p.1)
      (outputName p.1 p.2.1)
    match runExt cmd with
    | .ok _ => .success
    | .error e =>
      .failed ("Failed to split chapter '".toList ++ p.2.1 ++ "': ".toList
        ++ e))

example :
    split_all_chapters (fun _ => .error "boom".toList) "v.mp4".toList
      [("A".toList, 0), ("B".toList, 60)] =
    [.failed "Failed to split chapter 'A': boom".toList,
     .failed "Failed to split chapter 'B': boom".toList] := by decide

/-- The caller's description lookup `info.get("description", "")`
(`yt_download.py` line 42, `web_yt_downloader.py` line 288): a missing
description is replaced by the empty string. -/
def getDescription (info : Option (List Char)) : List Char :=
  info.getD []

/-- The possible shapes of a group-1 capture of the source pattern: the
leading field has one or two digits, each later field exactly two. -/
def tsShape (ts : List Char) : Prop :=
  (∃ a b c, isDigitC a = true ∧ isDigitC b = true ∧ isDigitC c = true ∧
    ts = [a, ':', b, c]) ∨
  (∃ a a2 b c, isDigitC a = true ∧ isDigitC a2 = true ∧ isDigitC b = true ∧
    isDigitC c = true ∧ ts = [a, a2, ':', b, c]) ∨
  (∃ a b c d e, isDigitC a = true ∧ isDigitC b = true ∧ isDigitC c = true ∧
    isDigitC d = true ∧ isDigitC e = true ∧ ts = [a, ':', b, c, ':', d, e]) ∨
  (∃ a a2 b c d e, isDigitC a = true ∧ isDigitC a2 = true ∧
    isDigitC b = true ∧ isDigitC c = true ∧ isDigitC d = true ∧
    isDigitC e = true ∧ ts = [a, a2, ':', b, c, ':', d, e])

/-- The recorded outcome text of a failed split. -/
def failMsg (title e : List Char) : List Char :=
  "Failed to split chapter '".toList ++ title ++ "': ".toList ++ e

/-- The numeric value of an all-digit string, as Python `int` computes it. -/
def digitsNatVal (l : List Char) : Nat :=
  l.foldl (fun a c => a * 10 + (c.toNat - 48)) 0

theorem isDigitC_iff {c : Char} :
    isDigitC c = true ↔ 48 ≤ c.toNat ∧ c.toNat ≤ 57 := by
  simp [isDigitC]

theorem isDigitC_ne {c d : Char} (h : isDigitC c = true)
    (hd : d.toNat < 48 ∨ 57 < d.toNat) : c ≠ d := by
  intro he
  rw [isDigitC_iff] at h
  subst he
  omega

theorem isDigitC_ne_colon {c : Char} (h : isDigitC c = true) : c ≠ ':' :=
  isDigitC_ne h (by right; decide)

theorem isDigitC_ne_minus {c : Char} (h : isDigitC c = true) : c ≠ '-' :=
  isDigitC_ne h (by left; decide)

theorem isDigitC_ne_plus {c : Char} (h : isDigitC c = true) : c ≠ '+' :=
  isDigitC_ne h (by left; decide)

theorem isDigitC_not_space {c : Char} (h : isDigitC c = true) :
    pyIsSpace c = false := by
  rw [isDigitC_iff] at h
  simp only [pyIsSpace, Bool.or_eq_false_iff, decide_eq_false_iff_not]
  refine ⟨⟨⟨⟨⟨?_, ?_⟩, ?_⟩, ?_⟩, ?_⟩, ?_⟩ <;>
    (intro he; subst he; exact absurd h (by decide))

theorem pyIsSpace_ne_colon {c : Char} (h : pyIsSpace c = true) : c ≠ ':' := by
  intro he
  subst he
  simp [pyIsSpace] at h

theorem isDashC_not_space {c : Char} (h : isDashC c = true) :
    pyIsSpace c = false := by
  simp only [isDashC, Bool.or_eq_true, decide_eq_true_eq] at h
  rcases h with (h | h) | h <;> subst h <;> decide

theorem isDashC_ne_colon {c : Char} (h : isDashC c = true) : c ≠ ':' := by
  simp only [isDashC, Bool.or_eq_true, decide_eq_true_eq] at h
  rcases h with (h | h) | h <;> subst h <;> decide

theorem splitOnChar_ne_nil (sep : Char) (l : List Char) :
    splitOnChar sep l ≠ [] := by
  induction l with
  | nil => simp [splitOnChar]
  | cons c cs ih =>
    rw [splitOnChar]
    split
    · simp
    · rcases h : splitOnChar sep cs with _ | ⟨f, rest⟩
      · exact absurd h ih
      · simp [h]

theorem splitOnChar_nosep {sep : Char} {xs : List Char}
    (h : ∀ c ∈ xs, c ≠ sep) : splitOnChar sep xs = [xs] := by
  induction xs with
  | nil => rfl
  | cons c cs ih =>
    have hc : c ≠ sep := h c (by simp)
    have hrec : splitOnChar sep cs = [cs] := ih (fun x hx => h x (by simp [hx]))
    rw [splitOnChar, if_neg hc, hrec]

theorem splitOnChar_nosep_append {sep : Char} {xs ys : List Char}
    (h : ∀ c ∈ xs, c ≠ sep) :
    splitOnChar sep (xs ++ sep :: ys) = xs :: splitOnChar sep ys := by
  induction xs with
  | nil => simp [splitOnChar]
  | cons c cs ih =>
    have hc : c ≠ sep := h c (by simp)
    have hrec := ih (fun x hx => h x (by simp [hx]))
    rw [List.cons_append, splitOnChar, if_neg hc, hrec]

theorem digitsToNatAux_all_digits {l : List Char}
    (h : ∀ c ∈ l, isDigitC c = true) (acc : Nat) :
    digitsToNatAux acc l = some (l.foldl (fun a c => a * 10 + (c.toNat - 48)) acc) := by
  induction l generalizing acc with
  | nil => rfl
  | cons c cs ih =>
    have hc : isDigitC c = true := h c (by simp)
    rw [digitsToNatAux, if_pos hc, ih (fun x hx => h x (by simp [hx]))]
    rfl

theorem pyInt?_all_digits {l : List Char} (hne : l ≠ [])
    (h : ∀ c ∈ l, isDigitC c = true) :
    pyInt? l = some ((digitsNatVal l : Nat) : Int) := by
  rcases l with _ | ⟨c, cs⟩
  · exact absurd rfl hne
  · have hc : isDigitC c = true := h c (by simp)
    rw [pyInt?, if_neg (isDigitC_ne_minus hc), if_neg (isDigitC_ne_plus hc)]
    rw [digitsToNat, digitsToNatAux_all_digits h 0]
    rfl

theorem digitChar_isDigit (d : Nat) : isDigitC (digitChar d) = true := by
  rcases d with _ | _ | _ | _ | _ | _ | _ | _ | _ | _ <;> rfl

theorem digitChar_val {d : Nat} (h : d < 10) :
    (digitChar d).toNat - 48 = d := by
  interval_cases d <;> rfl

theorem natDigitsAux_all_digits (fuel n : Nat) :
    ∀ c ∈ natDigitsAux fuel n, isDigitC c = true := by
  induction fuel generalizing n with
  | zero => simp [natDigitsAux]
  | succ fuel ih =>
    rw [natDigitsAux]
    split
    · simp [digitChar_isDigit]
    · intro c hc
      rcases List.mem_append.1 hc with h | h
      · exact ih _ c h
      · simp only [List.mem_singleton] at h
        subst h
        exact digitChar_isDigit _

theorem natDigitsAux_ne_nil {fuel n : Nat} (h : n < fuel) :
    natDigitsAux fuel n ≠ [] := by
  rcases fuel with _ | fuel
  · omega
  · rw [natDigitsAux]
    split
    · simp
    · simp

theorem natDigitsAux_foldl {fuel : Nat} :
    ∀ {n : Nat}, n < fuel → ∀ acc : Nat,
      (natDigitsAux fuel n).foldl (fun a c => a * 10 + (c.toNat - 48)) acc =
        acc * 10 ^ (natDigitsAux fuel n).length + n := by
  induction fuel with
  | zero => intro n h; omega
  | succ fuel ih =>
    intro n h acc
    rw [natDigitsAux]
    split
    · rename_i h10
      simp [List.foldl, digitChar_val h10]
    · rename_i h10
      push_neg at h10
      have hdiv : n / 10 < fuel := by
        have h1 : n / 10 < n := Nat.div_lt_self (by omega) (by omega)
        omega
      rw [List.foldl_append]
      rw [ih hdiv acc]
      simp only [List.foldl, List.length_append, List.length_singleton]
      rw [digitChar_val (Nat.mod_lt n (by omega))]
      have hmod : n % 10 + 10 * (n / 10) = n := Nat.mod_add_div n 10
      ring_nf
      omega

theorem natDigits_all_digits (n : Nat) :
    ∀ c ∈ natDigits n, isDigitC c = true :=
  natDigitsAux_all_digits (n + 1) n

theorem natDigits_ne_nil (n : Nat) : natDigits n ≠ [] :=
  natDigitsAux_ne_nil (Nat.lt_succ_self n)

theorem digitsNatVal_natDigits (n : Nat) : digitsNatVal (natDigits n) = n := by
  rw [digitsNatVal, natDigits, natDigitsAux_foldl (Nat.lt_succ_self n) 0]
  simp

theorem pad2_all_digits (n : Nat) : ∀ c ∈ pad2 n, isDigitC c = true := by
  rw [pad2]
  split
  · intro c hc
    rcases List.mem_cons.1 hc with h | h
    · subst h; rfl
    · exact natDigits_all_digits n c h
  · exact natDigits_all_digits n

theorem pad2_ne_nil (n : Nat) : pad2 n ≠ [] := by
  rw [pad2]
  split
  · simp
  · exact natDigits_ne_nil n

theorem digitsNatVal_pad2 (n : Nat) : digitsNatVal (pad2 n) = n := by
  rw [pad2]
  split
  · show List.foldl _ 0 ('0' :: natDigits n) = n
    rw [List.foldl_cons]
    show List.foldl _ 0 (natDigits n) = n
    exact digitsNatVal_natDigits n
  · exact digitsNatVal_natDigits n

theorem option_orElse_eq_some {α : Type} {a b : Option α} {c : α}
    (h : (a <|> b) = some c) : a = some c ∨ (a = none ∧ b = some c) := by
  cases a with
  | none => right; exact ⟨rfl, by simpa using h⟩
  | some x => left; simpa using h

theorem takeColonDD_some {l : List Char} {a b : Char} {rest : List Char}
    (h : takeColonDD l = some (a, b, rest)) :
    isDigitC a = true ∧ isDigitC b = true ∧ l = ':' :: a :: b :: rest := by
  rcases l with _ | ⟨c0, l⟩
  · simp [takeColonDD] at h
  rcases l with _ | ⟨x, l⟩
  · simp [takeColonDD] at h
  rcases l with _ | ⟨y, r⟩
  · simp [takeColonDD] at h
  simp only [takeColonDD] at h
  split at h
  · split at h
    · split at h
      · rename_i h1 h2 h3
        simp only [Option.some.injEq, Prod.mk.injEq] at h
        obtain ⟨rfl, rfl, rfl⟩ := h
        subst h1
        exact ⟨h2, h3, rfl⟩
      · exact absurd h (by simp)
    · exact absurd h (by simp)
  · exact absurd h (by simp)

theorem takeColonDD_cons_ne {w : Char} {l : List Char} (hw : w ≠ ':') :
    takeColonDD (w :: l) = none := by
  rcases l with _ | ⟨x, _ | ⟨y, r⟩⟩
  · rfl
  · rfl
  · simp only [takeColonDD, if_neg hw]

theorem afterMM_shape {ts0 rest ts title : List Char}
    (h : afterMM ts0 rest = some (ts, title)) :
    ts = ts0 ∨ ∃ c d, isDigitC c = true ∧ isDigitC d = true ∧
      ts = ts0 ++ [':', c, d] := by
  rcases ht : takeColonDD rest with _ | ⟨⟨a, b, rest2⟩⟩
  · simp only [afterMM, ht, Option.none_orElse] at h
    rcases Option.map_eq_some'.1 h with ⟨t, -, ht2⟩
    exact Or.inl (congrArg Prod.fst ht2).symm
  · obtain ⟨hda, hdb, -⟩ := takeColonDD_some ht
    simp only [afterMM, ht] at h
    rcases option_orElse_eq_some h with h1 | ⟨-, h2⟩
    · rcases Option.map_eq_some'.1 h1 with ⟨t, -, ht2⟩
      exact Or.inr ⟨a, b, hda, hdb, (congrArg Prod.fst ht2).symm⟩
    · rcases Option.map_eq_some'.1 h2 with ⟨t, -, ht2⟩
      exact Or.inl (congrArg Prod.fst ht2).symm

theorem matchColonMM_shape {ds rest ts title : List Char}
    (h : matchColonMM ds rest = some (ts, title)) :
    ∃ a b, isDigitC a = true ∧ isDigitC b = true ∧
      (ts = ds ++ [':', a, b] ∨
       ∃ c d, isDigitC c = true ∧ isDigitC d = true ∧
         ts = ds ++ [':', a, b, ':', c, d]) := by
  rcases ht : takeColonDD rest with _ | ⟨⟨a, b, rest2⟩⟩
  · simp [matchColonMM, ht] at h
  · obtain ⟨hda, hdb, -⟩ := takeColonDD_some ht
    simp only [matchColonMM, ht] at h
    rcases afterMM_shape h with h1 | ⟨c, d, hdc, hdd, h2⟩
    · exact ⟨a, b, hda, hdb, Or.inl h1⟩
    · refine ⟨a, b, hda, hdb, Or.inr ⟨c, d, hdc, hdd, ?_⟩⟩
      rw [h2]
      simp

theorem matchAt_shape {s ts title : List Char}
    (h : matchAt s = some (ts, title)) : tsShape ts := by
  rcases s with _ | ⟨c1, rest1⟩
  · simp [matchAt] at h
  by_cases hd1 : isDigitC c1 = true
  · simp only [matchAt, if_pos hd1] at h
    rcases option_orElse_eq_some h with h1 | ⟨-, h2⟩
    · rcases rest1 with _ | ⟨c2, rest2⟩
      · simp at h1
      · replace h1 : (if isDigitC c2 = true then matchColonMM [c1, c2] rest2
            else none) = some (ts, title) := h1
        by_cases hd2 : isDigitC c2 = true
        · rw [if_pos hd2] at h1
          obtain ⟨a, b, hda, hdb, hc⟩ := matchColonMM_shape h1
          rcases hc with hc | ⟨c, d, hdc, hdd, hc⟩
          · exact Or.inr (Or.inl ⟨c1, c2, a, b, hd1, hd2, hda, hdb, by simpa using hc⟩)
          · exact Or.inr (Or.inr (Or.inr
              ⟨c1, c2, a, b, c, d, hd1, hd2, hda, hdb, hdc, hdd, by simpa using hc⟩))
        · rw [if_neg hd2] at h1
          simp at h1
    · obtain ⟨a, b, hda, hdb, hc⟩ := matchColonMM_shape h2
      rcases hc with hc | ⟨c, d, hdc, hdd, hc⟩
      · exact Or.inl ⟨c1, a, b, hd1, hda, hdb, by simpa using hc⟩
      · exact Or.inr (Or.inr (Or.inl
          ⟨c1, a, b, c, d, hd1, hda, hdb, hdc, hdd, by simpa using hc⟩))
  · simp only [matchAt, if_neg hd1] at h
    exact Option.noConfusion h

theorem time_to_seconds_two_fields {m s : List Char} (hm : m ≠ [])
    (hs : s ≠ []) (hdm : ∀ c ∈ m, isDigitC c = true)
    (hds : ∀ c ∈ s, isDigitC c = true) :
    time_to_seconds (m ++ ':' :: s) =
      .ok (0 * 3600 + (digitsNatVal m : Int) * 60 + (digitsNatVal s : Int)) := by
  have hsplit : splitOnChar ':' (m ++ ':' :: s) = [m, s] := by
    rw [splitOnChar_nosep_append (fun c hc => isDigitC_ne_colon (hdm c hc)),
        splitOnChar_nosep (fun c hc => isDigitC_ne_colon (hds c hc))]
  rw [time_to_seconds, hsplit]
  simp only [mapIntParse, pyInt?_all_digits hm hdm, pyInt?_all_digits hs hds]

theorem time_to_seconds_three_fields {h m s : List Char} (hh : h ≠ [])
    (hm : m ≠ []) (hs : s ≠ []) (hdh : ∀ c ∈ h, isDigitC c = true)
    (hdm : ∀ c ∈ m, isDigitC c = true) (hds : ∀ c ∈ s, isDigitC c = true) :
    time_to_seconds (h ++ ':' :: (m ++ ':' :: s)) =
      .ok ((digitsNatVal h : Int) * 3600 + (digitsNatVal m : Int) * 60 +
        (digitsNatVal s : Int)) := by
  have hsplit : splitOnChar ':' (h ++ ':' :: (m ++ ':' :: s)) = [h, m, s] := by
    rw [splitOnChar_nosep_append (fun c hc => isDigitC_ne_colon (hdh c hc)),
        splitOnChar_nosep_append (fun c hc => isDigitC_ne_colon (hdm c hc)),
        splitOnChar_nosep (fun c hc => isDigitC_ne_colon (hds c hc))]
  rw [time_to_seconds, hsplit]
  simp only [mapIntParse, pyInt?_all_digits hh hdh, pyInt?_all_digits hm hdm,
    pyInt?_all_digits hs hds]

theorem tsShape_parse {ts : List Char} (h : tsShape ts) :
    ∃ n : Int, 0 ≤ n ∧ time_to_seconds ts = .ok n := by
  rcases h with ⟨a, b, c, ha, hb, hc, rfl⟩ |
    ⟨a, a2, b, c, ha, ha2, hb, hc, rfl⟩ |
    ⟨a, b, c, d, e, ha, hb, hc, hd, he, rfl⟩ |
    ⟨a, a2, b, c, d, e, ha, ha2, hb, hc, hd, he, rfl⟩
  · have ht := @time_to_seconds_two_fields [a] [b, c]
      (by simp) (by simp) (by simpa using ha) (by simp [hb, hc])
    refine ⟨_, ?_, by simpa using ht⟩
    omega
  · have ht := @time_to_seconds_two_fields [a, a2] [b, c]
      (by simp) (by simp) (by simp [ha, ha2]) (by simp [hb, hc])
    refine ⟨_, ?_, by simpa using ht⟩
    omega
  · have ht := @time_to_seconds_three_fields [a] [b, c] [d, e]
      (by simp) (by simp) (by simp)
      (by simpa using ha) (by simp [hb, hc]) (by simp [hd, he])
    refine ⟨_, ?_, by simpa using ht⟩
    omega
  · have ht := @time_to_seconds_three_fields [a, a2] [b, c] [d, e]
      (by simp) (by simp) (by simp)
      (by simp [ha, ha2]) (by simp [hb, hc]) (by simp [hd, he])
    refine ⟨_, ?_, by simpa using ht⟩
    omega

theorem reSearch_shape {s ts title : List Char}
    (h : reSearch s = some (ts, title)) : tsShape ts := by
  induction s with
  | nil => simp [reSearch] at h
  | cons c rest ih =>
    rw [reSearch] at h
    rcases option_orElse_eq_some h with h1 | ⟨-, h2⟩
    · exact matchAt_shape h1
    · exact ih h2

theorem lineChapter_of_reSearch {line ts title : List Char}
    (h : reSearch line = some (ts, title)) :
    ∃ n : Int, 0 ≤ n ∧ time_to_seconds ts = .ok n ∧
      lineChapter line = some (pyStrip title, n) := by
  obtain ⟨n, hn, ht⟩ := tsShape_parse (reSearch_shape h)
  exact ⟨n, hn, ht, by simp only [lineChapter, h, ht]⟩

theorem lineChapter_nonneg {line : List Char} {ch : List Char × Int}
    (h : lineChapter line = some ch) : 0 ≤ ch.2 := by
  rcases hs : reSearch line with _ | ⟨ts, title⟩
  · simp [lineChapter, hs] at h
  · obtain ⟨n, hn, ht, hlc⟩ := lineChapter_of_reSearch hs
    rw [hlc] at h
    obtain rfl : (pyStrip title, n) = ch := by injection h
    exact hn

theorem extractLoop_eq (lines : List (List Char)) :
    ∀ acc, extractLoop acc lines = .ok (acc ++ lines.filterMap lineChapter) := by
  induction lines with
  | nil => intro acc; simp [extractLoop]
  | cons line rest ih =>
    intro acc
    rcases hs : reSearch line with _ | ⟨ts, title⟩
    · have hlc : lineChapter line = none := by simp [lineChapter, hs]
      simp only [extractLoop, hs, List.filterMap_cons, hlc]
      exact ih acc
    · obtain ⟨n, hn, ht, hlc⟩ := lineChapter_of_reSearch hs
      simp only [extractLoop, hs, ht]
      rw [ih]
      simp [hlc, List.filterMap_cons]

/-- Chapter extraction never raises: its result is the per-line chapters,
in line order. -/
theorem extract_chapters_eq (d : List Char) :
    extract_chapters d = .ok ((pySplitlines d).filterMap lineChapter) := by
  simpa [extract_chapters] using extractLoop_eq (pySplitlines d) []

theorem dropWhile_append_all {p : Char → Bool} {xs ys : List Char}
    (h : ∀ x ∈ xs, p x = true) :
    (xs ++ ys).dropWhile p = ys.dropWhile p := by
  induction xs with
  | nil => rfl
  | cons x xs ih =>
    rw [List.cons_append, List.dropWhile_cons_of_pos (h x (by simp))]
    exact ih (fun y hy => h y (by simp [hy]))

theorem matchSep_full {ws1 ws2 trest : List Char} {dash t0 : Char}
    (hws1 : ∀ w ∈ ws1, pyIsSpace w = true) (hdash : isDashC dash = true)
    (hws2 : ∀ w ∈ ws2, pyIsSpace w = true) (h0 : pyIsSpace t0 = false) :
    matchSep (ws1 ++ dash :: (ws2 ++ t0 :: trest)) = some (t0 :: trest) := by
  have h1 : (ws1 ++ dash :: (ws2 ++ t0 :: trest)).dropWhile pyIsSpace
      = dash :: (ws2 ++ t0 :: trest) := by
    rw [dropWhile_append_all hws1,
      List.dropWhile_cons_of_neg (by simp [isDashC_not_space hdash])]
  have h2 : (ws2 ++ t0 :: trest).dropWhile pyIsSpace = t0 :: trest := by
    rw [dropWhile_append_all hws2, List.dropWhile_cons_of_neg (by simp [h0])]
  simp only [matchSep, h1, if_pos hdash, h2]
  simp

theorem reSearch_full_line {a b c dash t0 : Char} {ws1 ws2 trest : List Char}
    (ha : isDigitC a = true) (hb : isDigitC b = true) (hc : isDigitC c = true)
    (hws1 : ∀ w ∈ ws1, pyIsSpace w = true) (hdash : isDashC dash = true)
    (hws2 : ∀ w ∈ ws2, pyIsSpace w = true) (h0 : pyIsSpace t0 = false) :
    reSearch (a :: ':' :: b :: c :: (ws1 ++ dash :: (ws2 ++ t0 :: trest))) =
      some ([a, ':', b, c], t0 :: trest) := by
  have hTake : takeColonDD (ws1 ++ dash :: (ws2 ++ t0 :: trest)) = none := by
    rcases ws1 with _ | ⟨w, ws1a⟩
    · simpa using takeColonDD_cons_ne (isDashC_ne_colon hdash)
    · simpa using takeColonDD_cons_ne (pyIsSpace_ne_colon (hws1 w (by simp)))
  have hAfter : afterMM [a, ':', b, c] (ws1 ++ dash :: (ws2 ++ t0 :: trest)) =
      some ([a, ':', b, c], t0 :: trest) := by
    simp only [afterMM, hTake, Option.none_orElse,
      matchSep_full hws1 hdash hws2 h0]
    rfl
  have hColonDD : takeColonDD
      (':' :: b :: c :: (ws1 ++ dash :: (ws2 ++ t0 :: trest))) =
      some (b, c, ws1 ++ dash :: (ws2 ++ t0 :: trest)) := by
    simp only [takeColonDD, if_pos hb, if_pos hc]
    simp
  have hColon : matchColonMM [a]
      (':' :: b :: c :: (ws1 ++ dash :: (ws2 ++ t0 :: trest))) =
      some ([a, ':', b, c], t0 :: trest) := by
    simp only [matchColonMM, hColonDD]
    simpa using hAfter
  have hAt : matchAt
      (a :: ':' :: b :: c :: (ws1 ++ dash :: (ws2 ++ t0 :: trest))) =
      some ([a, ':', b, c], t0 :: trest) := by
    have hcolon_digit : isDigitC ':' = false := by decide
    simp only [matchAt, if_pos ha, hcolon_digit, Bool.false_eq_true,
      if_false, Option.none_orElse]
    exact hColon
  rw [reSearch, hAt]
  rfl

theorem lineChapter_full {a b c dash t0 : Char} {ws1 ws2 trest : List Char}
    (ha : isDigitC a = true) (hb : isDigitC b = true) (hc : isDigitC c = true)
    (hws1 : ∀ w ∈ ws1, pyIsSpace w = true) (hdash : isDashC dash = true)
    (hws2 : ∀ w ∈ ws2, pyIsSpace w = true) (h0 : pyIsSpace t0 = false) :
    lineChapter ([a, ':', b, c] ++ (ws1 ++ dash :: (ws2 ++ t0 :: trest))) =
      some (pyStrip (t0 :: trest),
        0 * 3600 + (digitsNatVal [a] : Int) * 60 + (digitsNatVal [b, c] : Int)) := by
  have hr := @reSearch_full_line a b c dash t0 ws1 ws2 trest
    ha hb hc hws1 hdash hws2 h0
  have ht := @time_to_seconds_two_fields [a] [b, c]
    (by simp) (by simp) (by simpa using ha) (by simp [hb, hc])
  show lineChapter (a :: ':' :: b :: c :: (ws1 ++ dash :: (ws2 ++ t0 :: trest))) = _
  simp only [lineChapter, hr]
  rw [show ([a] ++ ':' :: [b, c] : List Char) = [a, ':', b, c] from rfl] at ht
  rw [ht]

theorem mapIntParse_isSome {fs : List (List Char)}
    (h : ∀ f ∈ fs, (pyInt? f).isSome = true) :
    ∃ vs, mapIntParse fs = some vs ∧ vs.length = fs.length := by
  induction fs with
  | nil => exact ⟨[], rfl, rfl⟩
  | cons f fs ih =>
    obtain ⟨vs, hvs, hlen⟩ := ih (fun g hg => h g (by simp [hg]))
    obtain ⟨v, hv⟩ := Option.isSome_iff_exists.1 (h f (by simp))
    exact ⟨v :: vs, by simp [mapIntParse, hv, hvs], by simp [hlen]⟩

theorem buildRanges_getElem? (chs : List (List Char × Int)) (i : Nat) :
    (buildRanges chs)[i]? = (chs[i]?).map (fun ch =>
      { index := i + 1, title := ch.1, start := ch.2,
        stop := chapterEnd chs i }) := by
  rw [buildRanges, List.getElem?_map, List.getElem?_enum]
  cases chs[i]? <;> rfl

theorem buildRanges_length (chs : List (List Char × Int)) :
    (buildRanges chs).length = chs.length := by
  rw [buildRanges, List.length_map, List.enum_length]

theorem split_all_chapters_getElem?
    (runExt : List (List Char) → Except (List Char) Unit)
    (video : List Char) (chs : List (List Char × Int)) (i : Nat) :
    (split_all_chapters runExt video chs)[i]? = (chs[i]?).map (fun ch =>
      match runExt (webCmd video ch.2 (chapterEnd chs i)
          (outputName i ch.1)) with
      | .ok _ => SegOutcome.success
      | .error e => SegOutcome.failed (failMsg ch.1 e)) := by
  rw [split_all_chapters, List.getElem?_map, List.getElem?_enum]
  cases chs[i]? <;> rfl

/-- Claim C1: for every colon-separated numeric token, `time_to_seconds`
returns `h*3600 + m*60 + s`: a 2-field token `M:SS` yields `M*60 + SS`
(hours implicitly 0), a 3-field token `H:MM:SS` yields
`H*3600 + MM*60 + SS`, and a token with 1 or 4+ fields fails with the
`Invalid timestamp` error naming the token; minute and second fields are
not clamped to 0-59, so `90:00` yields 5400 and `75:90` yields 4590. -/
theorem C1_timestamp_parse :
    (∀ m s : List Char, m ≠ [] → s ≠ [] →
      (∀ c ∈ m, isDigitC c = true) → (∀ c ∈ s, isDigitC c = true) →
      time_to_seconds (m ++ ':' :: s) =
        .ok ((digitsNatVal m : Int) * 60 + (digitsNatVal s : Int)))
    ∧ (∀ h m s : List Char, h ≠ [] → m ≠ [] → s ≠ [] →
      (∀ c ∈ h, isDigitC c = true) → (∀ c ∈ m, isDigitC c = true) →
      (∀ c ∈ s, isDigitC c = true) →
      time_to_seconds (h ++ ':' :: (m ++ ':' :: s)) =
        .ok ((digitsNatVal h : Int) * 3600 + (digitsNatVal m : Int) * 60 +
          (digitsNatVal s : Int)))
    ∧ (∀ t : List Char,
      ((splitOnChar ':' t).length = 1 ∨ 4 ≤ (splitOnChar ':' t).length) →
      (∀ f ∈ splitOnChar ':' t, (pyInt? f).isSome = true) →
      time_to_seconds t = .error (.invalidTimestamp t))
    ∧ time_to_seconds "90:00".toList = .ok 5400
    ∧ time_to_seconds "75:90".toList = .ok 4590 := by
  refine ⟨?_, ?_, ?_, by decide, by decide⟩
  · intro m s hm hs hdm hds
    rw [time_to_seconds_two_fields hm hs hdm hds]
    norm_num
  · intro h m s hh hm hs hdh hdm hds
    exact time_to_seconds_three_fields hh hm hs hdh hdm hds
  · intro t hlen hsome
    obtain ⟨vs, hvs, hvslen⟩ := mapIntParse_isSome hsome
    rw [time_to_seconds, hvs]
    rcases vs with _ | ⟨a, _ | ⟨b, _ | ⟨c, _ | ⟨d, rest⟩⟩⟩⟩ <;>
      simp only [List.length_nil, List.length_cons] at hvslen <;>
      first
      | rfl
      | (exfalso; omega)

theorem C1_timestamp_parse_witness :
    time_to_seconds ("7".toList ++ ':' :: "05".toList) =
      .ok ((digitsNatVal "7".toList : Int) * 60 + (digitsNatVal "05".toList : Int))
    ∧ time_to_seconds ("1".toList ++ ':' :: ("02".toList ++ ':' :: "03".toList)) =
      .ok ((digitsNatVal "1".toList : Int) * 3600 +
        (digitsNatVal "02".toList : Int) * 60 + (digitsNatVal "03".toList : Int))
    ∧ time_to_seconds "90".toList = .error (.invalidTimestamp "90".toList) :=
  ⟨C1_timestamp_parse.1 "7".toList "05".toList (by decide) (by decide)
      (by decide) (by decide),
   C1_timestamp_parse.2.1 "1".toList "02".toList "03".toList (by decide)
      (by decide) (by decide) (by decide) (by decide) (by decide),
   C1_timestamp_parse.2.2.1 "90".toList (by decide) (by decide)⟩

/-- Claim C2: `extract_chapters` processes lines independently and returns
chapters in source line order without sorting or deduplicating; each line
yields at most one chapter (`lineChapter` is an `Option`), matched on the
first dash-like separator after the timestamp, whose title is the trimmed
remainder of the whole line after that separator (including any later
dash-separated segments); non-matching lines contribute nothing. -/
theorem C2_per_line_extraction :
    (∀ d : List Char,
      extract_chapters d = .ok ((pySplitlines d).filterMap lineChapter))
    ∧ (∀ (a b c dash t0 : Char) (ws1 ws2 trest : List Char),
        isDigitC a = true → isDigitC b = true → isDigitC c = true →
        (∀ w ∈ ws1, pyIsSpace w = true) → isDashC dash = true →
        (∀ w ∈ ws2, pyIsSpace w = true) → pyIsSpace t0 = false →
        lineChapter ([a, ':', b, c] ++ (ws1 ++ dash :: (ws2 ++ t0 :: trest))) =
          some (pyStrip (t0 :: trest),
            0 * 3600 + (digitsNatVal [a] : Int) * 60 +
              (digitsNatVal [b, c] : Int)))
    ∧ extract_chapters "1:00 - A\n0:30 - B\n0:30 - B".toList =
        .ok [("A".toList, 60), ("B".toList, 30), ("B".toList, 30)]
    ∧ lineChapter "1:30 - A - B".toList = some ("A - B".toList, 90) := by
  refine ⟨extract_chapters_eq, ?_, by decide, by decide⟩
  intro a b c dash t0 ws1 ws2 trest ha hb hc hws1 hdash hws2 h0
  exact lineChapter_full ha hb hc hws1 hdash hws2 h0

theorem C2_per_line_extraction_witness :
    extract_chapters "x".toList = .ok ((pySplitlines "x".toList).filterMap lineChapter)
    ∧ lineChapter (['1', ':', '3', '0'] ++
        ([' '] ++ '-' :: ([' '] ++ 'A' :: " - B".toList))) =
      some (pyStrip ('A' :: " - B".toList),
        0 * 3600 + (digitsNatVal ['1'] : Int) * 60 + (digitsNatVal ['3', '0'] : Int)) :=
  ⟨C2_per_line_extraction.1 "x".toList,
   C2_per_line_extraction.2.1 '1' '3' '0' '-' 'A' [' '] [' '] " - B".toList
     (by decide) (by decide) (by decide) (by decide) (by decide) (by decide)
     (by decide)⟩

/-- Claim C3: for every chapter list, the derived range list has exactly
one range per chapter; range `i` starts at `chapters[i]`'s offset; every
non-final range's end is the next chapter's start offset (equal to the next
range's start); the final range's end is open (`none`); and the empty
chapter list yields the empty range list, not an error. -/
theorem C3_range_builder (chs : List (List Char × Int)) :
    ((buildRanges chs).length = chs.length)
    ∧ (∀ i ch, chs[i]? = some ch → (buildRanges chs)[i]? =
        some ({ index := i + 1, title := ch.1, start := ch.2,
                stop := (chs[i + 1]?).map (fun c => c.2) } : SegRange))
    ∧ (∀ i, i + 1 < chs.length → ∃ r r', (buildRanges chs)[i]? = some r ∧
        (buildRanges chs)[i + 1]? = some r' ∧ r.stop = some r'.start)
    ∧ (1 ≤ chs.length → ∃ r, (buildRanges chs)[chs.length - 1]? = some r ∧
        r.stop = none)
    ∧ buildRanges [] = [] := by
  refine ⟨buildRanges_length chs, ?_, ?_, ?_, rfl⟩
  · intro i ch hch
    rw [buildRanges_getElem?, hch]
    rfl
  · intro i hi
    have hi0 : i < chs.length := by omega
    rw [buildRanges_getElem?, buildRanges_getElem?,
      List.getElem?_eq_getElem hi0, List.getElem?_eq_getElem hi]
    refine ⟨_, _, rfl, rfl, ?_⟩
    simp [chapterEnd, List.getElem?_eq_getElem hi]
  · intro hn
    have hlast : chs.length - 1 < chs.length := by omega
    rw [buildRanges_getElem?, List.getElem?_eq_getElem hlast]
    refine ⟨_, rfl, ?_⟩
    have : chs.length - 1 + 1 = chs.length := by omega
    simp [chapterEnd, this]

theorem C3_range_builder_witness :
    (buildRanges [("A".toList, 0), ("B".toList, 90)])[0]? =
      some ({ index := 1, title := "A".toList, start := 0,
              stop := some 90 } : SegRange)
    ∧ (∃ r, (buildRanges [("A".toList, 0), ("B".toList, 90)])[1]? = some r ∧
        r.stop = none) := by
  constructor
  · have h := (C3_range_builder [("A".toList, 0), ("B".toList, 90)]).2.1 0
      ("A".toList, 0) (by decide)
    rw [h]
    decide
  · exact (C3_range_builder [("A".toList, 0), ("B".toList, 90)]).2.2.2.1
      (by decide)

/-- Claim C4 counterexample: the claim says the duration argument is passed
exactly when the range end is defined, and that the zero-duration range
`start=60, end=60` is invoked with duration 0 rather than converted to an
open-ended invocation.  But `yt_download.py` tests `if duration:` — Python
truthiness — so at `start=60, end=60` (duration 0) no `-t` is passed at all
(open-ended command), and `web_yt_downloader.py` tests `if end:`, so a
defined end of 0 also omits the duration argument. -/
theorem C4_counterexample :
    ytCmd "video.mp4".toList 60 (some 60) "01 - A.mp4".toList =
      ["ffmpeg".toList, "-i".toList, "video.mp4".toList, "-ss".toList,
       "60".toList, "-c".toList, "copy".toList, "01 - A.mp4".toList]
    ∧ "-t".toList ∉ ytCmd "video.mp4".toList 60 (some 60) "01 - A.mp4".toList
    ∧ webCmd "video.mp4".toList 300 (some 0) "01 - A.mp4".toList =
      ["ffmpeg".toList, "-i".toList, "video.mp4".toList, "-ss".toList,
       "300".toList, "-c".toList, "copy".toList, "-avoid_negative_ts".toList,
       "make_zero".toList, "-y".toList, "01 - A.mp4".toList]
    ∧ "-t".toList ∉ webCmd "video.mp4".toList 300 (some 0) "01 - A.mp4".toList := by
  refine ⟨by decide, by decide, by decide, by decide⟩

/-- Claim C4 (amended): the duration argument `end - start` is passed
exactly when the end is defined and the Python-truthiness test passes:
`split_all_chapters` (`web_yt_downloader.py`) tests the end value, so it
passes `-t 0` for the zero-duration range `start=60, end=60` but omits
`-t` for a defined end equal to 0; `download_youtube_video`
(`yt_download.py`) tests the duration value, so it omits `-t` whenever
`end - start = 0`, turning the zero-duration range into an open-ended
invocation. -/
theorem C4_duration_argument :
    (∀ (v o : List Char) (s e : Int), e ≠ 0 →
      webCmd v s (some e) o =
        ["ffmpeg".toList, "-i".toList, v, "-ss".toList, intStr s,
         "-t".toList, intStr (e - s), "-c".toList, "copy".toList,
         "-avoid_negative_ts".toList, "make_zero".toList, "-y".toList, o])
    ∧ (∀ (v o : List Char) (s : Int),
      webCmd v s (some 0) o =
        ["ffmpeg".toList, "-i".toList, v, "-ss".toList, intStr s,
         "-c".toList, "copy".toList, "-avoid_negative_ts".toList,
         "make_zero".toList, "-y".toList, o])
    ∧ (∀ (v o : List Char) (s : Int),
      webCmd v s none o =
        ["ffmpeg".toList, "-i".toList, v, "-ss".toList, intStr s,
         "-c".toList, "copy".toList, "-avoid_negative_ts".toList,
         "make_zero".toList, "-y".toList, o])
    ∧ (∀ (v o : List Char) (s e : Int), e - s ≠ 0 →
      ytCmd v s (some e) o =
        ["ffmpeg".toList, "-i".toList, v, "-ss".toList, intStr s,
         "-t".toList, intStr (e - s), "-c".toList, "copy".toList, o])
    ∧ (∀ (v o : List Char) (s e : Int), e - s = 0 →
      ytCmd v s (some e) o =
        ["ffmpeg".toList, "-i".toList, v, "-ss".toList, intStr s,
         "-c".toList, "copy".toList, o])
    ∧ (∀ (v o : List Char) (s : Int),
      ytCmd v s none o =
        ["ffmpeg".toList, "-i".toList, v, "-ss".toList, intStr s,
         "-c".toList, "copy".toList, o])
    ∧ webCmd "v.mp4".toList 60 (some 60) "f.mp4".toList =
        ["ffmpeg".toList, "-i".toList, "v.mp4".toList, "-ss".toList,
         "60".toList, "-t".toList, "0".toList, "-c".toList, "copy".toList,
         "-avoid_negative_ts".toList, "make_zero".toList, "-y".toList,
         "f.mp4".toList] := by
  refine ⟨?_, ?_, ?_, ?_, ?_, ?_, by decide⟩
  · intro v o s e he
    simp [webCmd, he]
  · intro v o s
    simp [webCmd]
  · intro v o s
    simp [webCmd]
  · intro v o s e he
    simp [ytCmd, he]
  · intro v o s e he
    simp [ytCmd, he]
  · intro v o s
    simp [ytCmd]

theorem C4_duration_argument_witness :
    webCmd "v.mp4".toList 0 (some 90) "f.mp4".toList =
      ["ffmpeg".toList, "-i".toList, "v.mp4".toList, "-ss".toList,
       intStr 0, "-t".toList, intStr (90 - 0), "-c".toList, "copy".toList,
       "-avoid_negative_ts".toList, "make_zero".toList, "-y".toList,
       "f.mp4".toList]
    ∧ ytCmd "v.mp4".toList 60 (some 60) "f.mp4".toList =
      ["ffmpeg".toList, "-i".toList, "v.mp4".toList, "-ss".toList,
       intStr 60, "-c".toList, "copy".toList, "f.mp4".toList] :=
  ⟨C4_duration_argument.1 "v.mp4".toList "f.mp4".toList 0 90 (by decide),
   C4_duration_argument.2.2.2.2.1 "v.mp4".toList "f.mp4".toList 60 60
     (by decide)⟩

/-- Claim C5: in `split_all_chapters`, a non-zero exit of the external
extraction operation for one range is recorded as a failure carrying the
human-readable detail (the warning text naming the chapter title), and the
loop continues: the result has exactly one outcome per chapter, in order,
each determined only by that chapter's own invocation. -/
theorem C5_failure_tolerance
    (runExt : List (List Char) → Except (List Char) Unit)
    (video : List Char) (chs : List (List Char × Int)) :
    ((split_all_chapters runExt video chs).length = chs.length)
    ∧ (∀ i ch e, chs[i]? = some ch →
        runExt (webCmd video ch.2 (chapterEnd chs i) (outputName i ch.1)) =
          .error e →
        (split_all_chapters runExt video chs)[i]? =
          some (.failed (failMsg ch.1 e)))
    ∧ (∀ i ch, chs[i]? = some ch →
        runExt (webCmd video ch.2 (chapterEnd chs i) (outputName i ch.1)) =
          .ok () →
        (split_all_chapters runExt video chs)[i]? = some .success)
    ∧ (∀ i, i < chs.length →
        ((split_all_chapters runExt video chs)[i]?).isSome = true) := by
  refine ⟨?_, ?_, ?_, ?_⟩
  · rw [split_all_chapters, List.length_map, List.enum_length]
  · intro i ch e hch hrun
    rw [split_all_chapters_getElem?, hch]
    simp [hrun]
  · intro i ch hch hrun
    rw [split_all_chapters_getElem?, hch]
    simp [hrun]
  · intro i hi
    rw [split_all_chapters_getElem?, List.getElem?_eq_getElem hi]
    rfl

theorem C5_failure_tolerance_witness :
    (split_all_chapters (fun _ => .error "exit 1".toList) "v.mp4".toList
      [("A".toList, 0), ("B".toList, 60)])[0]? =
      some (.failed (failMsg "A".toList "exit 1".toList))
    ∧ (split_all_chapters (fun _ => .error "exit 1".toList) "v.mp4".toList
      [("A".toList, 0), ("B".toList, 60)])[1]? =
      some (.failed (failMsg "B".toList "exit 1".toList)) :=
  ⟨(C5_failure_tolerance (fun _ => .error "exit 1".toList) "v.mp4".toList
      [("A".toList, 0), ("B".toList, 60)]).2.1 0 ("A".toList, 0)
      "exit 1".toList (by decide) rfl,
   (C5_failure_tolerance (fun _ => .error "exit 1".toList) "v.mp4".toList
      [("A".toList, 0), ("B".toList, 60)]).2.1 1 ("B".toList, 60)
      "exit 1".toList (by decide) rfl⟩

/-- Claim C6: for every chapter title, the sanitized filename fragment of
`split_all_chapters` contains none of the characters stripped by
`re.sub(r'[\\/*?:"<>|]', "", title)`, has length at most 50, and the output
name is the zero-padded 1-based ordinal, the separator, the sanitized
fragment, and the fixed `.mp4` extension. -/
theorem C6_sanitization (title : List Char) (i : Nat) :
    (∀ c ∈ safe_title title, isBadFilenameChar c = false)
    ∧ (safe_title title).length ≤ 50
    ∧ outputName i title =
        pad2 (i + 1) ++ " - ".toList ++ safe_title title ++ ".mp4".toList := by
  refine ⟨?_, ?_, rfl⟩
  · intro c hc
    have hmem : c ∈ (title.filter (fun c => !(isBadFilenameChar c))) :=
      List.take_subset 50 _ hc
    have := (List.mem_filter.1 hmem).2
    simpa using this
  · rw [safe_title, List.length_take]
    omega

theorem C6_sanitization_witness :
    isBadFilenameChar 'B' = false ∧ (safe_title "A/B:C".toList).length ≤ 50 :=
  ⟨(C6_sanitization "A/B:C".toList 0).1 'B' (by decide),
   (C6_sanitization "A/B:C".toList 0).2.1⟩

/-- Claim C7: `extract_chapters` on an empty description, or on the empty
string substituted for a missing description by
`info.get("description", "")`, returns the empty chapter list and raises no
error. -/
theorem C7_empty_description :
    extract_chapters [] = .ok []
    ∧ getDescription none = []
    ∧ extract_chapters (getDescription none) = .ok [] :=
  ⟨rfl, rfl, rfl⟩

theorem formatTime_def (n : Nat) :
    formatTime n =
      if 0 < n / 60 / 60 then
        natDigits (n / 60 / 60) ++ ':' ::
          (pad2 (n / 60 % 60) ++ ':' :: pad2 (n % 60))
      else natDigits (n / 60 % 60) ++ ':' :: pad2 (n % 60) := rfl

/-- Claim C8: for every non-negative second offset, formatting it with the
display loop (`H:MM:SS` when at least one hour, else `M:SS`) and re-parsing
the token with `time_to_seconds` returns the original offset. -/
theorem C8_format_parse_roundtrip (n : Nat) :
    time_to_seconds (formatTime n) = .ok (n : Int)
    ∧ (3600 ≤ n → (splitOnChar ':' (formatTime n)).length = 3)
    ∧ (n < 3600 → (splitOnChar ':' (formatTime n)).length = 2) := by
  refine ⟨?_, ?_, ?_⟩
  · rw [formatTime_def]
    by_cases h : 0 < n / 60 / 60
    · rw [if_pos h, time_to_seconds_three_fields (natDigits_ne_nil _)
        (pad2_ne_nil _) (pad2_ne_nil _) (natDigits_all_digits _)
        (pad2_all_digits _) (pad2_all_digits _),
        digitsNatVal_natDigits, digitsNatVal_pad2, digitsNatVal_pad2]
      congr 1
      omega
    · rw [if_neg h, time_to_seconds_two_fields (natDigits_ne_nil _)
        (pad2_ne_nil _) (natDigits_all_digits _) (pad2_all_digits _),
        digitsNatVal_natDigits, digitsNatVal_pad2]
      congr 1
      omega
  · intro hn
    have h : 0 < n / 60 / 60 := by omega
    rw [formatTime_def, if_pos h,
      splitOnChar_nosep_append
        (fun c hc => isDigitC_ne_colon (natDigits_all_digits _ c hc)),
      splitOnChar_nosep_append
        (fun c hc => isDigitC_ne_colon (pad2_all_digits _ c hc)),
      splitOnChar_nosep
        (fun c hc => isDigitC_ne_colon (pad2_all_digits _ c hc))]
    rfl
  · intro hn
    have h : ¬(0 < n / 60 / 60) := by omega
    rw [formatTime_def, if_neg h,
      splitOnChar_nosep_append
        (fun c hc => isDigitC_ne_colon (natDigits_all_digits _ c hc)),
      splitOnChar_nosep
        (fun c hc => isDigitC_ne_colon (pad2_all_digits _ c hc))]
    rfl

theorem C8_format_parse_roundtrip_witness :
    time_to_seconds (formatTime 3725) = .ok ((3725 : Nat) : Int)
    ∧ (splitOnChar ':' (formatTime 3725)).length = 3
    ∧ (splitOnChar ':' (formatTime 90)).length = 2 :=
  ⟨(C8_format_parse_roundtrip 3725).1,
   (C8_format_parse_roundtrip 3725).2.1 (by norm_num),
   (C8_format_parse_roundtrip 90).2.2 (by norm_num)⟩

/-- Claim C9: `extract_chapters` terminates normally on every input and
never raises: every group-1 token captured by the line pattern parses
successfully (the `Invalid timestamp` branch and the `int()` failure are
unreachable from the extractor), and every produced start offset is
non-negative. -/
theorem C9_extractor_never_raises :
    (∀ d : List Char, ∃ l, extract_chapters d = .ok l ∧ ∀ ch ∈ l, 0 ≤ ch.2)
    ∧ (∀ s ts title : List Char, reSearch s = some (ts, title) →
        ∃ n : Int, 0 ≤ n ∧ time_to_seconds ts = .ok n) := by
  constructor
  · intro d
    refine ⟨_, extract_chapters_eq d, ?_⟩
    intro ch hch
    obtain ⟨line, -, hlc⟩ := List.mem_filterMap.1 hch
    exact lineChapter_nonneg hlc
  · intro s ts title h
    exact tsShape_parse (reSearch_shape h)

theorem C9_extractor_never_raises_witness :
    (∃ l, extract_chapters "0:00 - Intro".toList = .ok l ∧ ∀ ch ∈ l, 0 ≤ ch.2)
    ∧ (∃ n : Int, 0 ≤ n ∧ time_to_seconds "0:00".toList = .ok n) :=
  ⟨C9_extractor_never_raises.1 "0:00 - Intro".toList,
   C9_extractor_never_raises.2 "0:00 - Intro".toList "0:00".toList
     "Intro".toList (by decide)⟩

/-- Claim C10: the extractor only captures timestamp tokens whose leading
field has 1 or 2 digits and whose remaining fields have exactly 2 digits
each (`tsShape`); `"0:5 - Intro"` yields no chapter, and `"100:00 - X"`
yields a chapter parsed from the embedded substring `"00:00"` with start
offset 0 rather than 6000. -/
theorem C10_field_widths :
    extract_chapters "0:5 - Intro".toList = .ok []
    ∧ extract_chapters "100:00 - X".toList = .ok [("X".toList, 0)]
    ∧ (∀ s ts title : List Char, reSearch s = some (ts, title) → tsShape ts) :=
  ⟨by decide, by decide, fun s ts title h => reSearch_shape h⟩

theorem C10_field_widths_witness : tsShape "00:00".toList :=
  C10_field_widths.2.2 "100:00 - X".toList "00:00".toList "X".toList
    (by decide)
